import Mathlib

/-!
Verification of the whitenoise-core validator (Rust) against its
natural-language specification.  The Rust source is shallowly embedded:
pure functions become Lean functions, fallible functions return
`Except String`, and `HashMap`/`IndexMap` values are modelled as
association lists with replace-on-insert semantics.
-/

namespace Whitenoise

/-- Model of IEEE-754 binary64 values as used by the privacy-usage
arithmetic in `lib.rs`.  Finite values are carried exactly as rationals
(rounding to 53-bit mantissas is not modelled; for every concrete
computation in this development the IEEE binary64 result was checked to
be bit-identical to the rounding of the exact rational result, so the
model agrees with the code there).  The special values infinity, negative infinity and
NaN are explicit constructors; `0/0` produces NaN exactly as in IEEE. -/
inductive F64 where
  | finite (q : Rat)
  | inf
  | negInf
  | nan
deriving DecidableEq

/-- IEEE addition on the `F64` model (exact on finite values). -/
def F64.add : F64 → F64 → F64
  | .nan, _ => .nan
  | _, .nan => .nan
  | .finite a, .finite b => .finite (a + b)
  | .finite _, .inf => .inf
  | .inf, .finite _ => .inf
  | .inf, .inf => .inf
  | .finite _, .negInf => .negInf
  | .negInf, .finite _ => .negInf
  | .negInf, .negInf => .negInf
  | .inf, .negInf => .nan
  | .negInf, .inf => .nan

/-- IEEE multiplication on the `F64` model (exact on finite values). -/
def F64.mul : F64 → F64 → F64
  | .nan, _ => .nan
  | _, .nan => .nan
  | .finite a, .finite b => .finite (a * b)
  | .inf, .finite b => if b = 0 then .nan else if 0 < b then .inf else .negInf
  | .finite a, .inf => if a = 0 then .nan else if 0 < a then .inf else .negInf
  | .negInf, .finite b => if b = 0 then .nan else if 0 < b then .negInf else .inf
  | .finite a, .negInf => if a = 0 then .nan else if 0 < a then .negInf else .inf
  | .inf, .inf => .inf
  | .inf, .negInf => .negInf
  | .negInf, .inf => .negInf
  | .negInf, .negInf => .inf

/-- IEEE division on the `F64` model (exact on finite values; signed
zeros are not modelled, division by zero of a nonzero finite value gives
`inf`/`negInf` and `0/0` gives NaN exactly as in IEEE). -/
def F64.div : F64 → F64 → F64
  | .nan, _ => .nan
  | _, .nan => .nan
  | .finite a, .finite b =>
      if b = 0 then (if a = 0 then .nan else if 0 < a then .inf else .negInf)
      else .finite (a / b)
  | .finite _, .inf => .finite 0
  | .finite _, .negInf => .finite 0
  | .inf, .finite b => if 0 ≤ b then .inf else .negInf
  | .negInf, .finite b => if 0 ≤ b then .negInf else .inf
  | .inf, .inf => .nan
  | .inf, .negInf => .nan
  | .negInf, .inf => .nan
  | .negInf, .negInf => .nan

/-- `proto::privacy_usage::DistanceApproximate`: the approximate-DP
distance, a pair of `f64` fields `epsilon` and `delta`. -/
structure DistanceApproximate where
  epsilon : F64
  delta : F64
deriving DecidableEq

/-- `proto::privacy_usage::Distance`: the oneof over supported
distance metrics; today only `Approximate`. -/
inductive Distance where
  | approximate (d : DistanceApproximate)
deriving DecidableEq

/-- `proto::PrivacyUsage`: an optional distance. -/
structure PrivacyUsage where
  distance : Option Distance
deriving DecidableEq

/-- `impl Div<f64> for proto::PrivacyUsage` (lib.rs): errs when the
distance is undefined, otherwise divides `epsilon` and `delta` by the
scalar and returns `Ok`. -/
def PrivacyUsage.div (self : PrivacyUsage) (rhs : F64) : Except String PrivacyUsage :=
  match self.distance with
  | none => .error "distance must be defined"
  | some (.approximate approximate) =>
      .ok ⟨some (.approximate ⟨approximate.epsilon.div rhs, approximate.delta.div rhs⟩)⟩

/-- `impl Mul<f64> for proto::PrivacyUsage` (lib.rs): errs when the
distance is undefined, otherwise multiplies `epsilon` and `delta` by the
scalar and returns `Ok`. -/
def PrivacyUsage.mul (self : PrivacyUsage) (rhs : F64) : Except String PrivacyUsage :=
  match self.distance with
  | none => .error "distance must be defined"
  | some (.approximate approximate) =>
      .ok ⟨some (.approximate ⟨approximate.epsilon.mul rhs, approximate.delta.mul rhs⟩)⟩

/-- `impl Add<proto::PrivacyUsage> for proto::PrivacyUsage` (lib.rs):
errs when either distance is undefined, otherwise adds componentwise and
returns `Ok`. -/
def PrivacyUsage.add (self rhs : PrivacyUsage) : Except String PrivacyUsage :=
  match self.distance with
  | none => .error "distance must be defined"
  | some (.approximate l) =>
      match rhs.distance with
      | none => .error "distance must be defined"
      | some (.approximate r) =>
          .ok ⟨some (.approximate ⟨l.epsilon.add r.epsilon, l.delta.add r.delta⟩)⟩

/-- `even_split_lengths` (partition.rs): `(0..num_partitions)` mapped to
`num_records / num_partitions + (if index >= num_records % num_partitions
then 0 else 1)`, with Rust `i64` truncating division and remainder
(`Int.tdiv` / `Int.tmod`). -/
def even_split_lengths (num_records num_partitions : Int) : List Int :=
  (List.range num_partitions.toNat).map (fun (index : Nat) =>
    num_records.tdiv num_partitions +
      (if num_records.tmod num_partitions ≤ (index : Int) then 0 else 1))

/-- Association-list model of `HashMap::get` / `IndexMap::get`. -/
def mapGet {K V : Type} [DecidableEq K] : List (K × V) → K → Option V
  | [], _ => none
  | kv :: rest, k => if kv.1 = k then some kv.2 else mapGet rest k

/-- Association-list model of `HashMap::insert` / `IndexMap::insert`:
replaces the value in place at an existing key, otherwise appends
(`IndexMap` keeps first-insertion order; for `HashMap` only the contents
as a finite map matter). -/
def mapInsert {K V : Type} [DecidableEq K] : List (K × V) → K → V → List (K × V)
  | [], k, v => [(k, v)]
  | kv :: rest, k, v => if kv.1 = k then (k, v) :: rest else kv :: mapInsert rest k v

/-- `base::GroupId` (used by partition.rs): a partition provenance layer
`{partition_id, index?}`. -/
structure GroupId where
  partition_id : Nat
  index : Option Nat
deriving DecidableEq

/-- `base::Jagged`: typed per-column category lists (§3). -/
inductive Jagged where
  | f64 (v : List (List F64))
  | i64 (v : List (List Int))
  | bool (v : List (List Bool))
  | str (v : List (List String))
deriving DecidableEq

/-- Modelled from the spec: `base::ArrayProperties` is not among the
provided sources; §3 lists its attributes (num_records, num_columns,
nullity, releasable, per-column lower/upper bounds, categories,
dataset_id, group_id, is_public), all of which partition.rs manipulates
field-wise. -/
structure ArrayProperties where
  num_records : Option Int
  num_columns : Option Int
  nullity : Bool
  releasable : Bool
  lower : Option (List F64)
  upper : Option (List F64)
  categories : Option Jagged
  dataset_id : Option Int
  group_id : List GroupId
  is_public : Bool
deriving DecidableEq

/-- Keys of an index-map: the category types accepted by `Partition`
(Bool, Str, I64) and the integer keys of the count-based form. -/
inductive IndexKey where
  | bool (b : Bool)
  | i64 (i : Int)
  | str (s : String)
deriving DecidableEq

/-- `proto::indexmap_properties::Variant`: `Dataframe` or `Partition`. -/
inductive IndexmapVariant where
  | dataframe
  | partition
deriving DecidableEq

/-- `base::ValueProperties` (§3): a sum of array properties, jagged
properties and index-map properties.  The `indexmap` constructor carries
the fields of `base::IndexmapProperties` inline (num_records, disjoint,
child properties, dataset_id, variant). -/
inductive ValueProperties where
  | array (p : ArrayProperties)
  | jagged (j : Jagged)
  | indexmap (num_records : Option Int) (disjoint : Bool)
      (properties : List (IndexKey × ValueProperties))
      (dataset_id : Option Int) (variant : IndexmapVariant)

/-- Modelled from the spec: the `array()` projection on `ValueProperties`
fails with `TypeMismatch` when the variant differs (§4.1); named
`arrayResult` here because the constructor already bears the name. -/
def ValueProperties.arrayResult : ValueProperties → Except String ArrayProperties
  | .array p => .ok p
  | _ => .error "TypeMismatch: expected array properties"

/-- Modelled from the spec: the `categories()` accessor on array
properties fails with `Missing` when the attribute is `None` (§4.1). -/
def ArrayProperties.categoriesResult (self : ArrayProperties) : Except String Jagged :=
  match self.categories with
  | none => .error "Missing(categories)"
  | some c => .ok c

/-- `base::Value`: typed arrays or jagged arrays (§3; index-map values are
not needed by the components under verification and are omitted). -/
inductive ArrayData where
  | f64 (v : List F64)
  | i64 (v : List Int)
  | bool (v : List Bool)
  | str (v : List String)
deriving DecidableEq

inductive Value where
  | array (a : ArrayData)
  | jagged (j : Jagged)
deriving DecidableEq

/-- Modelled from the spec: the `array()` projection on `Value` fails with
`TypeMismatch` when the variant differs (§4.1); named `arrayResult`
here because the constructor already bears the name. -/
def Value.arrayResult : Value → Except String ArrayData
  | .array a => .ok a
  | _ => .error "TypeMismatch: expected array"

/-- Modelled from the spec: `first_i64` reads the first element of an I64
array and fails otherwise (used by Partition for `num_partitions`). -/
def ArrayData.first_i64 : ArrayData → Except String Int
  | .i64 (x :: _) => .ok x
  | .i64 [] => .error "array must not be empty"
  | _ => .error "TypeMismatch: expected i64 array"

/-- `Warnable<T>` (lib.rs): a value together with accumulated non-fatal
warnings (warnings are carried here as rendered strings). -/
structure Warnable (α : Type) where
  value : α
  warnings : List String

/-- Modelled from the spec: `proto::PrivacyDefinition` carries group size,
the neighbouring-dataset metric and protection flags (§3); none of the
provided component implementations read its fields. -/
structure PrivacyDefinition where
  group_size : Nat
  neighboring : Nat
  protect_overflow : Bool
deriving DecidableEq

/-- `proto::Partition` carries no parameters of its own. -/
structure Partition where
deriving DecidableEq

/-- `proto::DpQuantile` as constructed by DpMedian's expansion
(dp_median.rs): alpha, interpolation, privacy_usage, mechanism. -/
structure DpQuantile where
  alpha : F64
  interpolation : String
  privacy_usage : List PrivacyUsage
  mechanism : String
deriving DecidableEq

/-- `proto::DpMedian` (dp_median.rs): interpolation, privacy_usage,
mechanism. -/
structure DpMedian where
  interpolation : String
  privacy_usage : List PrivacyUsage
  mechanism : String
deriving DecidableEq

/-- `proto::component::Variant`, closed to the variants appearing in the
provided new-style sources (dp_median.rs, partition.rs, lib.rs). -/
inductive Variant where
  | dpMedian (v : DpMedian)
  | dpQuantile (v : DpQuantile)
  | partition (v : Partition)
deriving DecidableEq

/-- `proto::Component` (new-style sources): arguments (name to source
node id), optional variant, `omit`, `submission`. -/
structure Component where
  arguments : List (String × Nat)
  variant : Option Variant
  «omit» : Bool
  submission : Nat
deriving DecidableEq

/-- `base::ReleaseNode` (§3): a value, optional privacy usages, and the
`public` flag. -/
structure ReleaseNode where
  value : Value
  privacy_usages : Option (List PrivacyUsage)
  public : Bool
deriving DecidableEq

/-- `proto::ComponentExpansion` (new-style sources): replacement subgraph,
propagated properties, releases, traversal, warnings. -/
structure ComponentExpansion where
  computation_graph : List (Nat × Component)
  properties : List (Nat × ValueProperties)
  releases : List (Nat × ReleaseNode)
  traversal : List Nat
  warnings : List String

/-- `proto::RequestExpandComponent` (lib.rs): the request of the public
`expand_component` endpoint. -/
structure RequestExpandComponent where
  component : Option Component
  properties : List (String × ValueProperties)
  arguments : List (String × ReleaseNode)
  privacy_definition : Option PrivacyDefinition
  component_id : Nat
  maximum_id : Nat

/-- `impl Expandable for proto::DpMedian` (dp_median.rs): rewrites the
node in place into a `DpQuantile` with `alpha = 0.5`, forwarding
interpolation, privacy_usage and mechanism, keeping the arguments and the
submission, with `omit` set to `true` and `traversal = [component_id]`. -/
def DpMedian.expand_component (self : DpMedian)
    (_privacy_definition : Option PrivacyDefinition)
    (component : Component)
    (_properties : List (String × ValueProperties))
    (component_id : Nat) (_maximum_id : Nat) : Except String ComponentExpansion :=
  let dp_quantile_component : Component :=
    { arguments := component.arguments,
      variant := some (.dpQuantile
        ⟨F64.finite (1/2), self.interpolation, self.privacy_usage, self.mechanism⟩),
      «omit» := true,
      submission := component.submission }
  .ok { computation_graph := [(component_id, dp_quantile_component)],
        properties := [], releases := [],
        traversal := [component_id], warnings := [] }

/-- `broadcast_partitions` (partition.rs): fails unless the categories
have exactly one column; clones the parent properties, appends one
`group_id` layer `{partition_id: node_id, index: None}` and keys a copy by
every category value (collected into an `IndexMap`). -/
def broadcast_partitions {T : Type} [DecidableEq T]
    (categories : List (List T)) (properties : ArrayProperties) (node_id : Nat) :
    Except String (List (T × ValueProperties)) :=
  if categories.length ≠ 1 then .error "categories: must be defined for one column"
  else
    let properties1 := { properties with
      group_id := properties.group_id ++ [⟨node_id, none⟩] }
    let partitions := categories.headD []
    .ok ((partitions.map (fun v => (v, ValueProperties.array properties1))).foldl
      (fun m kv => mapInsert m kv.1 kv.2) [])

/-- `impl Component for proto::Partition::propagate_property`
(partition.rs).  With a `by` argument: requires `num_columns(by) = 1`,
reads the categories (floats are rejected), clears `num_records` on the
data properties and broadcasts them over the categories into a disjoint
index-map.  Without `by`: reads the public `num_partitions` argument and
keys children `0..k`, with record counts from `even_split_lengths` when
`num_records` is known. -/
def Partition.propagate_property (_self : Partition)
    (_privacy_definition : Option PrivacyDefinition)
    (public_arguments : List (String × Value))
    (properties : List (String × ValueProperties))
    (node_id : Nat) : Except String (Warnable ValueProperties) :=
  match mapGet properties "data" with
  | none => .error "data: missing"
  | some dpv =>
    match dpv.arrayResult with
    | .error e => .error ("data: " ++ e)
    | .ok data_property0 =>
      match mapGet properties "by" with
      | some by_pv =>
        (match by_pv.arrayResult with
        | .error e => .error ("by: " ++ e)
        | .ok by_property =>
          match by_property.num_columns with
          | none => .error "number of columns must be known on by"
          | some by_num_columns =>
            if by_num_columns ≠ 1 then
              .error "Partition's by argument must contain a single column"
            else
              match by_property.categoriesResult with
              | .error e => .error ("by: " ++ e)
              | .ok categories =>
                let data_property := { data_property0 with num_records := none }
                match categories with
                | .bool cats =>
                  (broadcast_partitions cats data_property node_id).map (fun ps =>
                    ⟨.indexmap data_property.num_records true
                      (ps.map (fun kv => (IndexKey.bool kv.1, kv.2)))
                      (some (node_id : Int)) .partition, []⟩)
                | .str cats =>
                  (broadcast_partitions cats data_property node_id).map (fun ps =>
                    ⟨.indexmap data_property.num_records true
                      (ps.map (fun kv => (IndexKey.str kv.1, kv.2)))
                      (some (node_id : Int)) .partition, []⟩)
                | .i64 cats =>
                  (broadcast_partitions cats data_property node_id).map (fun ps =>
                    ⟨.indexmap data_property.num_records true
                      (ps.map (fun kv => (IndexKey.i64 kv.1, kv.2)))
                      (some (node_id : Int)) .partition, []⟩)
                | .f64 _ => .error "partitioning based on floats is not supported")
      | none =>
        match mapGet public_arguments "num_partitions" with
        | none => .error "num_partitions or by must be passed to Partition"
        | some v =>
          match v.arrayResult with
          | .error e => .error e
          | .ok arr =>
            match arr.first_i64 with
            | .error e => .error e
            | .ok num_partitions =>
              let lengths : List (Option Int) :=
                match data_property0.num_records with
                | some num_records =>
                    (even_split_lengths num_records num_partitions).map some
                | none => (List.range num_partitions.toNat).map (fun _ => none)
              let children := (lengths.enum).map (fun p =>
                (IndexKey.i64 (p.1 : Int), ValueProperties.array
                  { data_property0 with
                    num_records := p.2,
                    group_id := data_property0.group_id ++ [⟨node_id, none⟩] }))
              .ok ⟨.indexmap data_property0.num_records false
                (children.foldl (fun m kv => mapInsert m kv.1 kv.2) [])
                (some (node_id : Int)) .partition, []⟩

/-- Modelled from the spec: `infer(value) → properties` reconstructs
properties from a concrete public value (§4.1); `utilities::inference`
is not among the provided sources.  Arrays are inferred as single-column
public releasable arrays with known record count. -/
def infer_property (value : Value) : Except String ValueProperties :=
  match value with
  | .array a =>
    let n : Int :=
      (match a with
      | .f64 v => v.length | .i64 v => v.length
      | .bool v => v.length | .str v => v.length)
    .ok (.array
      { num_records := some n, num_columns := some 1,
        nullity := false, releasable := true, lower := none, upper := none,
        categories := none, dataset_id := none, group_id := [], is_public := true })
  | .jagged j => .ok (.jagged j)

/-- Modelled from the spec: the per-variant `Component::expand_component`
dispatch (components/mod.rs is not among the provided sources).  The
expandable composite `DpMedian` delegates to its implementation (§4.2);
non-expandable components produce no replacement nodes and an empty
traversal. -/
def Component.expand_component (component : Component)
    (privacy_definition : Option PrivacyDefinition)
    (properties : List (String × ValueProperties))
    (component_id maximum_id : Nat) : Except String ComponentExpansion :=
  match component.variant with
  | some (.dpMedian self) =>
      self.expand_component privacy_definition component properties
        component_id maximum_id
  | _ => .ok { computation_graph := [], properties := [], releases := [],
               traversal := [], warnings := [] }

/-- Modelled from the spec: the per-variant `propagate_property` dispatch
(components/mod.rs is not among the provided sources), restricted to the
variants whose implementations are provided. -/
def Component.propagate_property (component : Component)
    (privacy_definition : Option PrivacyDefinition)
    (public_arguments : List (String × Value))
    (properties : List (String × ValueProperties))
    (node_id : Nat) : Except String (Warnable ValueProperties) :=
  match component.variant with
  | some (.partition p) =>
      p.propagate_property privacy_definition public_arguments properties node_id
  | _ => .error "propagation is not modelled for this variant"

/-- `expand_component` (lib.rs, lines 354-402): the public endpoint.
Parses the request, infers properties for arguments whose release node is
`public`, expands the component (errors gain an `at node_id` breadcrumb),
and — when the expansion has an empty traversal — calls
`propagate_property`, passing every argument's release value (public or
not) as `public_values`, and records the propagated property under the
component id. -/
def expand_component (request : RequestExpandComponent) :
    Except String ComponentExpansion := do
  let public_arguments := request.arguments
  let properties ← public_arguments.foldlM (fun acc kv =>
    if kv.2.public then do
      let p ← infer_property kv.2.value
      pure (mapInsert acc kv.1 p)
    else pure acc) request.properties
  match request.component with
  | none => .error "component must be defined"
  | some component => do
    let result ← match component.expand_component request.privacy_definition
        properties request.component_id request.maximum_id with
      | .error e => .error ("at node_id: " ++ e)
      | .ok r => pure r
    let public_values := public_arguments.map (fun kv => (kv.1, kv.2.value))
    if result.traversal.isEmpty then
      match component.propagate_property request.privacy_definition public_values
          properties request.component_id with
      | .error e => .error ("at node_id: " ++ e)
      | .ok w =>
        pure { result with
          warnings := result.warnings ++ w.warnings,
          properties := mapInsert result.properties request.component_id w.value }
    else
      pure result

/-- Modelled from the spec: `utilities::constraint::Constraint`, the
per-node property record of the oldest-style sources (impute.rs), is not
among the provided files; §3 lists the attributes manipulated there:
`nullity`, optional per-column lower (`min`) and upper (`max`) bounds,
and optional `num_records`. -/
structure Constraint where
  nullity : Bool
  min : Option (List F64)
  max : Option (List F64)
  num_records : Option Int
deriving DecidableEq

/-- `utilities::constraint::NodeConstraints`: argument name to constraint. -/
abbrev NodeConstraints := List (String × Constraint)

/-- Modelled from the spec: the attribute accessor for the lower bound
fails with `Missing` when the attribute is `None` (§4.1). -/
def get_min_f64 (constraints : NodeConstraints) (name : String) :
    Except String (List F64) :=
  match mapGet constraints name with
  | none => .error "missing argument"
  | some c =>
    match c.min with
    | none => .error "Missing(min)"
    | some v => .ok v

/-- Modelled from the spec: the attribute accessor for the upper bound
fails with `Missing` when the attribute is `None` (§4.1). -/
def get_max_f64 (constraints : NodeConstraints) (name : String) :
    Except String (List F64) :=
  match mapGet constraints name with
  | none => .error "missing argument"
  | some c =>
    match c.max with
    | none => .error "Missing(max)"
    | some v => .ok v

/-- Modelled from the spec: the attribute accessor for the record count
fails with `Missing` when the attribute is `None` (§4.1). -/
def get_num_records (constraints : NodeConstraints) (name : String) :
    Except String Int :=
  match mapGet constraints name with
  | none => .error "missing argument"
  | some c =>
    match c.num_records with
    | none => .error "Missing(num_records)"
    | some v => .ok v

/-- Whether an `Except` value is an error (Rust `Result::is_err`). -/
def exceptIsErr {ε α : Type} : Except ε α → Bool
  | .error _ => true
  | .ok _ => false

/-- `proto::Impute` carries no parameters read by the provided code. -/
structure Impute where
deriving DecidableEq

/-- `impl Component for proto::Impute::is_valid` (impute.rs): returns
false when any checked accessor errs.  The source checks `get_min_f64`
twice and `get_num_records` once; `get_max_f64` is never called. -/
def Impute.is_valid (_self : Impute) (constraints : NodeConstraints) : Bool :=
  if exceptIsErr (get_min_f64 constraints "data")
      || exceptIsErr (get_min_f64 constraints "data")
      || exceptIsErr (get_num_records constraints "data") then
    false
  else
    true

/-- `impl Component for proto::Impute::propagate_constraint` (impute.rs):
pass-through of the `data` constraint with `nullity` cleared; the source
unwraps the `data` entry (a panic, modelled as an error). -/
def Impute.propagate_constraint (_self : Impute) (constraints : NodeConstraints) :
    Except String Constraint :=
  match mapGet constraints "data" with
  | none => .error "unwrap failed: data constraint is not defined"
  | some c => .ok { c with nullity := false }

namespace V1

/-- `proto::Mean` (old-style generated descriptors used by dp_mean.rs):
no parameters. -/
structure Mean where
deriving DecidableEq

/-- `proto::LaplaceMechanism` (old-style, dp_mean.rs): privacy_usage. -/
structure LaplaceMechanism where
  privacy_usage : List PrivacyUsage
deriving DecidableEq

/-- `proto::DpMean` (old-style, dp_mean.rs): privacy_usage and
implementation. -/
structure DpMean where
  privacy_usage : List PrivacyUsage
  implementation : String
deriving DecidableEq

/-- `proto::component::Variant` of the old-style descriptors, closed to
the variants dp_mean.rs constructs. -/
inductive Variant where
  | mean (v : Mean)
  | laplaceMechanism (v : LaplaceMechanism)
  | dpMean (v : DpMean)
deriving DecidableEq

/-- `proto::Component` of the old-style descriptors (dp_mean.rs):
arguments, optional variant, `omit`, `batch`. -/
structure Component where
  arguments : List (String × Nat)
  variant : Option Variant
  «omit» : Bool
  batch : Nat
deriving DecidableEq

/-- `proto::ComponentExpansion` of the old-style descriptors
(dp_mean.rs): replacement subgraph, properties, releases and traversal
(no warnings field in this era); properties carry the old `Constraint`
records and releases carry released numeric arrays. -/
structure ComponentExpansion where
  computation_graph : List (Nat × Component)
  properties : List (Nat × Constraint)
  releases : List (Nat × (List F64))
  traversal : List Nat
deriving DecidableEq

/-- `impl Expandable for proto::DpMean::expand_component` (dp_mean.rs):
allocates `id_mean = maximum_id + 1` for a `Mean` over DpMean's `data`
argument with `omit = true`, rebinds `component_id` to a
`LaplaceMechanism` over `id_mean` carrying DpMean's privacy_usage with
`omit = false`, and returns `traversal = [id_mean]`.  The source unwraps
the `data` argument (a panic, modelled as an error). -/
def DpMean.expand_component (self : DpMean)
    (_privacy_definition : PrivacyDefinition)
    (component : Component)
    (_properties : NodeConstraints)
    (component_id : Nat) (maximum_id : Nat) : Except String ComponentExpansion :=
  let id_mean := maximum_id + 1
  match mapGet component.arguments "data" with
  | none => .error "unwrap failed: data argument is not defined"
  | some data_id =>
    let graph0 := mapInsert [] id_mean
      ({ arguments := [("data", data_id)], variant := some (.mean ⟨⟩),
         «omit» := true, batch := component.batch } : Component)
    let graph := mapInsert graph0 component_id
      ({ arguments := [("data", id_mean)],
         variant := some (.laplaceMechanism ⟨self.privacy_usage⟩),
         «omit» := false, batch := component.batch } : Component)
    .ok { computation_graph := graph, properties := [], releases := [],
          traversal := [id_mean] }

end V1

/-- Example DpMean of the spec's §8 scenario: privacy usage `[(ε=1, δ=0)]`. -/
def dpMeanExample : V1.DpMean :=
  { privacy_usage := [⟨some (.approximate ⟨F64.finite 1, F64.finite 0⟩)⟩],
    implementation := "resize" }

/-- Example privacy definition (its fields are never read). -/
def privacyDefinitionExample : PrivacyDefinition :=
  { group_size := 1, neighboring := 0, protect_overflow := false }

/-- Example constraints for Impute: lower bound and record count defined,
upper bound undefined. -/
def imputeNoUpperConstraints : NodeConstraints :=
  [("data", { nullity := true, min := some [F64.finite 0],
              max := none, num_records := some 10 })]

/-- Parent data properties of the spec's Partition scenario: 100 records,
3 columns, bounds `[0,0,0]`–`[1,1,1]`. -/
def partitionParentProperties : ArrayProperties :=
  { num_records := some 100, num_columns := some 3, nullity := false,
    releasable := false,
    lower := some [F64.finite 0, F64.finite 0, F64.finite 0],
    upper := some [F64.finite 1, F64.finite 1, F64.finite 1],
    categories := none, dataset_id := none, group_id := [], is_public := false }

/-- `by`-argument properties of the spec's Partition scenario: one Bool
category column `[[false, true]]`. -/
def partitionByProperties : ArrayProperties :=
  { num_records := some 100, num_columns := some 1, nullity := false,
    releasable := false, lower := none, upper := none,
    categories := some (.bool [[false, true]]), dataset_id := none,
    group_id := [], is_public := false }

/-- An `expand_component` request for a count-based Partition at node 4
whose `num_partitions` argument is supplied as a release node whose
`public` flag is `false`, with value `[k]`. -/
def partitionRequest (k : Int) : RequestExpandComponent :=
  { component := some
      { arguments := [("data", 2), ("num_partitions", 3)],
        variant := some (.partition ⟨⟩), «omit» := false, submission := 0 },
    properties := [("data", .array partitionParentProperties)],
    arguments := [("num_partitions",
      { value := .array (.i64 [k]), privacy_usages := none, public := false })],
    privacy_definition := none, component_id := 4, maximum_id := 4 }

/-- Argument properties of the spec's Partition-by-categories scenario. -/
def partitionByScenarioProperties : List (String × ValueProperties) :=
  [("data", .array partitionParentProperties),
   ("by", .array partitionByProperties)]

/-- The number of children of the index-map property that the
`expand_component` endpoint records for node 4. -/
def partitionChildCount (r : Except String ComponentExpansion) : Option Nat :=
  match r with
  | .error _ => none
  | .ok exp =>
    match mapGet exp.properties 4 with
    | some (.indexmap _ _ children _ _) => some children.length
    | _ => none

/-- The child properties a Partition bestows on every partition: the
parent array properties with `num_records` cleared and one appended
`group_id` layer `{partition_id: node_id, index: None}`. -/
def partitionChildProperties (dp : ArrayProperties) (node_id : Nat) : ValueProperties :=
  .array { dp with num_records := none,
                   group_id := dp.group_id ++ [⟨node_id, none⟩] }

end Whitenoise

open Whitenoise

/-- C4: `even_split_lengths(N, k)`, for every `N ≥ 0` and `k ≥ 0`,
returns a vector of length `k` whose first `N mod k` entries are
`⌈N/k⌉` and whose remaining entries are `⌊N/k⌋`; in particular
`even_split_lengths(4,3) = [2,1,1]`, `(5,3) = [2,2,1]`, `(3,3) =
[1,1,1]`, `(2,3) = [1,1,0]`, and `(2,0) = []`. -/
theorem even_split_lengths_spec (N k : Int) (hN : 0 ≤ N) (hk : 0 ≤ k) :
    (even_split_lengths N k).length = k.toNat ∧
    (∀ (i : Nat) (h : i < (even_split_lengths N k).length),
      (even_split_lengths N k).get ⟨i, h⟩ =
        if (i : Int) < N % k then (N + k - 1) / k else N / k) ∧
    even_split_lengths 4 3 = [2, 1, 1] ∧
    even_split_lengths 5 3 = [2, 2, 1] ∧
    even_split_lengths 3 3 = [1, 1, 1] ∧
    even_split_lengths 2 3 = [1, 1, 0] ∧
    even_split_lengths 2 0 = [] := by
  have hlen : (even_split_lengths N k).length = k.toNat := by
    unfold even_split_lengths
    rw [List.length_map, List.length_range]
  refine ⟨hlen, ?_, by decide, by decide, by decide, by decide, by decide⟩
  intro i h
  have hik : i < k.toNat := hlen ▸ h
  have hkpos : 0 < k := by omega
  have hdiv : N.tdiv k = N / k := Int.tdiv_eq_ediv hN hk
  have hmod : N.tmod k = N % k := Int.tmod_eq_emod hN hk
  have hval : (even_split_lengths N k).get ⟨i, h⟩ =
      N.tdiv k + (if N.tmod k ≤ (i : Int) then 0 else 1) := by
    simp only [even_split_lengths, List.get_eq_getElem, List.getElem_map,
      List.getElem_range]
  rw [hval, hdiv, hmod]
  by_cases hc : (i : Int) < N % k
  · have hr1 : 1 ≤ N % k := by omega
    have hrk : N % k < k := Int.emod_lt_of_pos N hkpos
    have key : (N + k - 1) / k = N / k + 1 := by
      have hsplit : N + k - 1 = (N % k - 1) + (N / k + 1) * k := by
        have := Int.ediv_add_emod N k
        ring_nf
        omega
      rw [hsplit, Int.add_mul_ediv_right _ _ (by omega : k ≠ 0),
        Int.ediv_eq_zero_of_lt (by omega) (by omega), Int.zero_add]
    rw [if_pos hc, if_neg (by omega), key]
  · rw [if_pos (by omega), if_neg hc, Int.add_zero]

/-- Witness for C4 at `N = 5`, `k = 3`. -/
theorem even_split_lengths_spec_witness :
    ((0 : Int) ≤ 5 ∧ (0 : Int) ≤ 3) ∧
    ((even_split_lengths 5 3).length = (3 : Int).toNat ∧
    (∀ (i : Nat) (h : i < (even_split_lengths 5 3).length),
      (even_split_lengths 5 3).get ⟨i, h⟩ =
        if (i : Int) < 5 % 3 then (5 + 3 - 1) / 3 else 5 / 3) ∧
    even_split_lengths 4 3 = [2, 1, 1] ∧
    even_split_lengths 5 3 = [2, 2, 1] ∧
    even_split_lengths 3 3 = [1, 1, 1] ∧
    even_split_lengths 2 3 = [1, 1, 0] ∧
    even_split_lengths 2 0 = []) :=
  ⟨⟨by decide, by decide⟩, even_split_lengths_spec 5 3 (by decide) (by decide)⟩

/-- C9: addition of two PrivacyUsage values with defined approximate-DP
distances is componentwise on `(epsilon, delta)`, and division by a
scalar divides both components; in particular `(ε=2, δ=1e-6) + (ε=3,
δ=2e-6) = (ε=5, δ=3e-6)` and `(ε=5, δ=3e-6) / 2 = (ε=2.5, δ=1.5e-6)`
(the concrete identities were checked bit-exact under IEEE binary64 —
fl(1e-6) + fl(2e-6) = fl(3e-6) and fl(3e-6) / 2 = fl(1.5e-6) — so the
exact rational model agrees with the code on these inputs). -/
theorem privacy_usage_add_div_componentwise
    (l r : DistanceApproximate) (s : F64) :
    PrivacyUsage.add ⟨some (.approximate l)⟩ ⟨some (.approximate r)⟩ =
      .ok ⟨some (.approximate ⟨l.epsilon.add r.epsilon, l.delta.add r.delta⟩)⟩ ∧
    PrivacyUsage.div ⟨some (.approximate l)⟩ s =
      .ok ⟨some (.approximate ⟨l.epsilon.div s, l.delta.div s⟩)⟩ ∧
    PrivacyUsage.add ⟨some (.approximate ⟨.finite 2, .finite (1/1000000)⟩)⟩
        ⟨some (.approximate ⟨.finite 3, .finite (2/1000000)⟩)⟩ =
      .ok ⟨some (.approximate ⟨.finite 5, .finite (3/1000000)⟩)⟩ ∧
    PrivacyUsage.div ⟨some (.approximate ⟨.finite 5, .finite (3/1000000)⟩)⟩
        (.finite 2) =
      .ok ⟨some (.approximate ⟨.finite (5/2), .finite (3/2000000)⟩)⟩ := by
  refine ⟨rfl, rfl, ?_, ?_⟩
  · simp only [PrivacyUsage.add, F64.add]
    norm_num
  · simp only [PrivacyUsage.div, F64.div]
    norm_num

/-- C3 counterexample: dividing the privacy usage `(ε=0, δ=0)` by the
scalar `0.0` makes both `epsilon` and `delta` NaN (IEEE `0/0`), yet the
operation returns `Ok` with the NaN values rather than an error. -/
theorem privacy_usage_div_nan_returns_ok :
    PrivacyUsage.div ⟨some (.approximate ⟨.finite 0, .finite 0⟩)⟩ (.finite 0) =
      .ok ⟨some (.approximate ⟨F64.nan, F64.nan⟩)⟩ := by
  simp [PrivacyUsage.div, F64.div]

/-- C3 amended: the Add, Mul and Div operations on PrivacyUsage return an
error exactly when an operand's distance is undefined; the `epsilon` and
`delta` arithmetic itself is unchecked, so NaN or infinite results are
returned inside an `Ok` value. -/
theorem privacy_usage_arithmetic_unchecked
    (l r : DistanceApproximate) (s : F64) (u : PrivacyUsage) :
    (∃ v, PrivacyUsage.add ⟨some (.approximate l)⟩ ⟨some (.approximate r)⟩ = .ok v) ∧
    (∃ v, PrivacyUsage.mul ⟨some (.approximate l)⟩ s = .ok v) ∧
    (∃ v, PrivacyUsage.div ⟨some (.approximate l)⟩ s = .ok v) ∧
    PrivacyUsage.add ⟨none⟩ u = .error "distance must be defined" ∧
    PrivacyUsage.add u ⟨none⟩ = .error "distance must be defined" ∧
    PrivacyUsage.mul ⟨none⟩ s = .error "distance must be defined" ∧
    PrivacyUsage.div ⟨none⟩ s = .error "distance must be defined" := by
  refine ⟨⟨_, rfl⟩, ⟨_, rfl⟩, ⟨_, rfl⟩, rfl, ?_, rfl, rfl⟩
  match u with
  | ⟨none⟩ => rfl
  | ⟨some (.approximate _)⟩ => rfl

/-- C2: Impute's `is_valid` accepts constraints whose upper bound is
undefined — the source checks the lower-bound accessor twice and never
the upper bound — so "valid iff lower, upper and num_records are defined
on data" fails; `is_valid` in fact only requires the lower bound and the
record count. -/
theorem impute_is_valid_ignores_upper_bound :
    Impute.is_valid ⟨⟩ imputeNoUpperConstraints = true ∧
    get_max_f64 imputeNoUpperConstraints "data" = .error "Missing(max)" ∧
    (∀ cs : NodeConstraints, Impute.is_valid ⟨⟩ cs =
      (!exceptIsErr (get_min_f64 cs "data") &&
       !exceptIsErr (get_num_records cs "data"))) := by
  refine ⟨rfl, rfl, ?_⟩
  intro cs
  unfold Impute.is_valid
  cases h1 : exceptIsErr (get_min_f64 cs "data") <;>
    cases h2 : exceptIsErr (get_num_records cs "data") <;> simp [h1, h2]

/-- C6: DpMedian's `expand_component` rewrites the node in place: the
returned graph binds exactly the original `component_id` to a DpQuantile
with `alpha = 0.5` forwarding interpolation, privacy_usage and mechanism,
keeps the original arguments, and `traversal = [component_id]`. -/
theorem dp_median_expand_component_rewrites_in_place
    (self : DpMedian) (pd : Option PrivacyDefinition)
    (args : List (String × Nat)) (v : Option Variant) (o : Bool) (s : Nat)
    (props : List (String × ValueProperties)) (n m : Nat) :
    DpMedian.expand_component self pd ⟨args, v, o, s⟩ props n m =
      .ok { computation_graph :=
              [(n, { arguments := args,
                     variant := some (.dpQuantile ⟨F64.finite (1/2),
                       self.interpolation, self.privacy_usage, self.mechanism⟩),
                     «omit» := true, submission := s })],
            properties := [], releases := [], traversal := [n],
            warnings := [] } := rfl

/-- C10: the DpQuantile node produced by DpMedian's `expand_component`
has `omit = true` unconditionally, for every value of the original
component's `omit` flag. -/
theorem dp_median_expand_sets_omit_unconditionally
    (self : DpMedian) (pd : Option PrivacyDefinition)
    (args : List (String × Nat)) (v : Option Variant) (o : Bool) (s : Nat)
    (props : List (String × ValueProperties)) (n m : Nat) :
    (DpMedian.expand_component self pd ⟨args, v, o, s⟩ props n m).map
        (fun exp => (mapGet exp.computation_graph n).map
          (fun c => c.«omit»)) = .ok (some true) := by
  simp [DpMedian.expand_component, mapGet, Except.map]

/-- C5: DpMean's `expand_component` at node `n` with maximum id `m`
returns a graph with exactly two entries — node `m+1` a Mean over
DpMean's `data` argument with `omit = true`, and node `n` a
LaplaceMechanism over `m+1` carrying DpMean's privacy_usage — with
`traversal = [m+1]`. -/
theorem dp_mean_expand_component_spec
    (self : V1.DpMean) (pd : PrivacyDefinition)
    (args : List (String × Nat)) (v : Option V1.Variant) (o : Bool) (b : Nat)
    (props : NodeConstraints) (n m d : Nat)
    (hdata : mapGet args "data" = some d) (hn : n ≤ m) :
    V1.DpMean.expand_component self pd ⟨args, v, o, b⟩ props n m =
      .ok { computation_graph :=
              [(m + 1, { arguments := [("data", d)], variant := some (.mean ⟨⟩),
                         «omit» := true, batch := b }),
               (n, { arguments := [("data", m + 1)],
                     variant := some (.laplaceMechanism ⟨self.privacy_usage⟩),
                     «omit» := false, batch := b })],
            properties := [], releases := [], traversal := [m + 1] } := by
  unfold V1.DpMean.expand_component
  simp only [hdata]
  simp [mapInsert, show ¬(m + 1 = n) by omega]

/-- Witness for C5: the spec's §8 scenario at node 7 with maximum id 10
and `data` argument 7. -/
theorem dp_mean_expand_component_spec_witness :
    (mapGet [("data", 7)] "data" = some 7 ∧ 7 ≤ 10) ∧
    V1.DpMean.expand_component dpMeanExample privacyDefinitionExample
        ⟨[("data", 7)], some (.dpMean dpMeanExample), false, 0⟩ [] 7 10 =
      .ok { computation_graph :=
              [(11, { arguments := [("data", 7)], variant := some (.mean ⟨⟩),
                      «omit» := true, batch := 0 }),
               (7, { arguments := [("data", 11)],
                     variant := some (.laplaceMechanism
                       ⟨dpMeanExample.privacy_usage⟩),
                     «omit» := false, batch := 0 })],
            properties := [], releases := [], traversal := [11] } :=
  ⟨⟨rfl, by decide⟩,
    dp_mean_expand_component_spec dpMeanExample privacyDefinitionExample
      [("data", 7)] (some (.dpMean dpMeanExample)) false 0 [] 7 10 7
      rfl (by decide)⟩

/-- `mapInsert` with a fresh key appends. -/
theorem mapInsert_not_mem {K V : Type} [DecidableEq K]
    (m : List (K × V)) (k : K) (v : V) (h : ∀ kv ∈ m, kv.1 ≠ k) :
    mapInsert m k v = m ++ [(k, v)] := by
  induction m with
  | nil => rfl
  | cons kv rest ih =>
    have hk : kv.1 ≠ k := h kv (List.mem_cons_self kv rest)
    simp only [mapInsert, if_neg hk, List.cons_append]
    rw [ih (fun x hx => h x (List.mem_cons_of_mem kv hx))]

/-- Collecting pairwise-distinct keyed pairs by repeated insertion
reproduces the list. -/
theorem foldl_mapInsert_eq_append {K V : Type} [DecidableEq K]
    (l : List (K × V)) (acc : List (K × V))
    (hdis : ∀ kv ∈ l, ∀ kv2 ∈ acc, kv2.1 ≠ kv.1)
    (hnd : (l.map Prod.fst).Nodup) :
    l.foldl (fun m kv => mapInsert m kv.1 kv.2) acc = acc ++ l := by
  induction l generalizing acc with
  | nil => simp
  | cons kv rest ih =>
    rw [List.map_cons, List.nodup_cons] at hnd
    have hhead : kv.1 ∉ rest.map Prod.fst := hnd.1
    have hnd2 : (rest.map Prod.fst).Nodup := hnd.2
    rw [List.foldl_cons,
      mapInsert_not_mem acc kv.1 kv.2
        (fun kv2 h2 => hdis kv (List.mem_cons_self kv rest) kv2 h2)]
    rw [ih (acc ++ [kv]) ?_ hnd2]
    · simp
    · intro kv1 h1 kv2 h2
      rcases List.mem_append.mp h2 with h2a | h2b
      · exact hdis kv1 (List.mem_cons_of_mem kv h1) kv2 h2a
      · have hkv : kv2 = (kv.1, kv.2) := by simpa using h2b
        intro hEq
        apply hhead
        rw [hkv] at hEq
        simp only at hEq
        rw [hEq]
        exact List.mem_map_of_mem Prod.fst h1


/-- `mapGet` after `mapInsert`: the inserted key is bound to the new
value, every other key is unchanged. -/
theorem mapGet_mapInsert {K V : Type} [DecidableEq K]
    (m : List (K × V)) (k k2 : K) (v : V) :
    mapGet (mapInsert m k v) k2 = if k = k2 then some v else mapGet m k2 := by
  induction m with
  | nil => simp [mapInsert, mapGet]
  | cons kv rest ih =>
    by_cases h1 : kv.1 = k
    · simp only [mapInsert, if_pos h1, mapGet]
      by_cases h2 : k = k2
      · simp [h2]
      · simp [h2, mapGet, h1 ▸ h2]
    · simp only [mapInsert, if_neg h1, mapGet]
      by_cases h2 : kv.1 = k2
      · have : ¬(k = k2) := fun he => h1 (he ▸ h2)
        simp [h2, this]
      · simp [h2, ih]

/-- Entries produced by `mapInsert` come from the map or are the new
pair. -/
theorem mem_mapInsert {K V : Type} [DecidableEq K]
    (m : List (K × V)) (k : K) (v : V) (kv : K × V)
    (h : kv ∈ mapInsert m k v) : kv ∈ m ∨ kv = (k, v) := by
  induction m with
  | nil => simpa [mapInsert] using h
  | cons kv0 rest ih =>
    by_cases h0 : kv0.1 = k
    · rw [mapInsert, if_pos h0] at h
      rcases List.mem_cons.mp h with h1 | h1
      · right; exact h1
      · left; exact List.mem_cons_of_mem _ h1
    · rw [mapInsert, if_neg h0] at h
      rcases List.mem_cons.mp h with h1 | h1
      · left; exact h1 ▸ List.mem_cons_self _ _
      · rcases ih h1 with h2 | h2
        · left; exact List.mem_cons_of_mem _ h2
        · right; exact h2

/-- Entries of a fold of insertions come from the accumulator or the
inserted list. -/
theorem mem_foldl_mapInsert {K V : Type} [DecidableEq K]
    (l : List (K × V)) (acc : List (K × V)) (kv : K × V)
    (h : kv ∈ l.foldl (fun m p => mapInsert m p.1 p.2) acc) :
    kv ∈ acc ∨ kv ∈ l := by
  induction l generalizing acc with
  | nil => left; simpa using h
  | cons p rest ih =>
    rw [List.foldl_cons] at h
    rcases ih (mapInsert acc p.1 p.2) h with h1 | h1
    · rcases mem_mapInsert acc p.1 p.2 kv h1 with h2 | h2
      · left; exact h2
      · right; rw [h2]; simp
    · right; exact List.mem_cons_of_mem _ h1

/-- `mapGet` of a collect (fold of insertions) of a constant value: every
key of the list is bound to the value, duplicates collapsing exactly as
`IndexMap::insert` does. -/
theorem mapGet_foldl_mapInsert_const {K V : Type} [DecidableEq K]
    (C : List K) (X : V) (acc : List (K × V)) (k : K) :
    mapGet ((C.map (fun c => (c, X))).foldl (fun m p => mapInsert m p.1 p.2) acc) k =
      if k ∈ C then some X else mapGet acc k := by
  induction C generalizing acc with
  | nil => simp
  | cons c rest ih =>
    rw [List.map_cons, List.foldl_cons, ih]
    by_cases h1 : k ∈ rest
    · rw [if_pos h1, if_pos (List.mem_cons_of_mem c h1)]
    · rw [if_neg h1, mapGet_mapInsert]
      by_cases h2 : c = k
      · rw [if_pos h2, if_pos (h2 ▸ List.mem_cons_self c rest)]
      · rw [if_neg h2, if_neg (by
          intro hmem
          rcases List.mem_cons.mp hmem with he | he
          · exact h2 he.symm
          · exact h1 he)]

/-- `mapGet` through an injective re-keying of the entries. -/
theorem mapGet_map_injKey {K K2 V : Type} [DecidableEq K] [DecidableEq K2]
    (inj : K → K2) (hinj : ∀ a b, inj a = inj b → a = b)
    (L : List (K × V)) (c : K) :
    mapGet (L.map (fun kv => (inj kv.1, kv.2))) (inj c) = mapGet L c := by
  induction L with
  | nil => rfl
  | cons kv rest ih =>
    by_cases h : kv.1 = c
    · simp [mapGet, h]
    · have hne : ¬(inj kv.1 = inj c) := fun he => h (hinj _ _ he)
      simp [mapGet, h, hne, ih]

/-- The association list obtained by collecting `(c, X)` pairs over `C`
and re-keying through an injection: each element of `C` is bound to `X`,
every entry stems from an element of `C`, and for duplicate-free `C` the
list is exactly `C` in order. -/
theorem collect_rekey_properties {T : Type} [DecidableEq T]
    (inj : T → IndexKey) (hinj : ∀ a b, inj a = inj b → a = b)
    (C : List T) (X : ValueProperties) :
    ∃ L, (((C.map (fun v => (v, X))).foldl
          (fun m p => mapInsert m p.1 p.2) []).map
        (fun kv => (inj kv.1, kv.2))) = L ∧
      (∀ c, mapGet L (inj c) = if c ∈ C then some X else none) ∧
      (∀ kv ∈ L, kv.2 = X ∧ ∃ c ∈ C, kv.1 = inj c) ∧
      (C.Nodup → L = C.map (fun c => (inj c, X))) := by
  refine ⟨_, rfl, ?_, ?_, ?_⟩
  · intro c
    rw [mapGet_map_injKey inj hinj, mapGet_foldl_mapInsert_const]
    by_cases hc : c ∈ C <;> simp [hc, mapGet]
  · intro kv hkv
    rcases List.mem_map.mp hkv with ⟨kv0, hkv0, rfl⟩
    rcases mem_foldl_mapInsert _ [] kv0 hkv0 with h | h
    · cases h
    · rcases List.mem_map.mp h with ⟨c, hc, rfl⟩
      exact ⟨rfl, c, hc, rfl⟩
  · intro hnd
    have hkeys : (C.map (fun v => (v, X))).map Prod.fst = C := by
      rw [List.map_map]
      have hcomp : (Prod.fst ∘ fun v : T => (v, X)) = id := rfl
      rw [hcomp, List.map_id]
    rw [foldl_mapInsert_eq_append _ [] (by simp) (by rw [hkeys]; exact hnd)]
    rw [List.nil_append, List.map_map]
    rfl

/-- C7: for a Partition whose `by` argument has array properties with one
column, for every non-float single-column category list `C` (Bool, Str or
I64), `propagate_property` returns a disjoint index-map with
`num_records = None` whose children are keyed by the elements of `C`:
every element of `C` is bound to the parent data array's properties with
`num_records` cleared and `group_id` extended by one layer
`{partition_id: node_id, index: None}`, every key stems from an element
of `C` (duplicates collapsing exactly as `IndexMap` insertion does), and
for duplicate-free `C` the children are exactly one key per element of
`C` in order. -/
theorem partition_propagate_property_by_categories
    (dp bp : ArrayProperties)
    (pd : Option PrivacyDefinition) (pub : List (String × Value))
    (props : List (String × ValueProperties)) (node_id : Nat)
    (hdata : mapGet props "data" = some (.array dp))
    (hby : mapGet props "by" = some (.array bp))
    (hnc : bp.num_columns = some 1) :
    (∀ C : List Bool, bp.categories = some (.bool [C]) →
      ∃ L, Partition.propagate_property ⟨⟩ pd pub props node_id =
          .ok ⟨.indexmap none true L (some (node_id : Int)) .partition, []⟩ ∧
        (∀ c, mapGet L (IndexKey.bool c) =
          if c ∈ C then some (partitionChildProperties dp node_id) else none) ∧
        (∀ kv ∈ L, kv.2 = partitionChildProperties dp node_id ∧
          ∃ c ∈ C, kv.1 = IndexKey.bool c) ∧
        (C.Nodup → L = C.map (fun c =>
          (IndexKey.bool c, partitionChildProperties dp node_id)))) ∧
    (∀ C : List String, bp.categories = some (.str [C]) →
      ∃ L, Partition.propagate_property ⟨⟩ pd pub props node_id =
          .ok ⟨.indexmap none true L (some (node_id : Int)) .partition, []⟩ ∧
        (∀ c, mapGet L (IndexKey.str c) =
          if c ∈ C then some (partitionChildProperties dp node_id) else none) ∧
        (∀ kv ∈ L, kv.2 = partitionChildProperties dp node_id ∧
          ∃ c ∈ C, kv.1 = IndexKey.str c) ∧
        (C.Nodup → L = C.map (fun c =>
          (IndexKey.str c, partitionChildProperties dp node_id)))) ∧
    (∀ C : List Int, bp.categories = some (.i64 [C]) →
      ∃ L, Partition.propagate_property ⟨⟩ pd pub props node_id =
          .ok ⟨.indexmap none true L (some (node_id : Int)) .partition, []⟩ ∧
        (∀ c, mapGet L (IndexKey.i64 c) =
          if c ∈ C then some (partitionChildProperties dp node_id) else none) ∧
        (∀ kv ∈ L, kv.2 = partitionChildProperties dp node_id ∧
          ∃ c ∈ C, kv.1 = IndexKey.i64 c) ∧
        (C.Nodup → L = C.map (fun c =>
          (IndexKey.i64 c, partitionChildProperties dp node_id)))) := by
  refine ⟨?_, ?_, ?_⟩
  · intro C hcat
    unfold Partition.propagate_property
    rw [hdata]
    simp only [ValueProperties.arrayResult]
    rw [hby]
    simp only [ValueProperties.arrayResult, hnc]
    rw [if_neg (by simp)]
    simp only [ArrayProperties.categoriesResult, hcat]
    unfold broadcast_partitions
    rw [if_neg (by simp)]
    simp only [List.headD_cons, Except.map]
    rcases collect_rekey_properties IndexKey.bool
        (fun a b h => by injection h) C
        (partitionChildProperties dp node_id) with ⟨L, hL, h1, h2, h3⟩
    exact ⟨L, by rw [← hL]; rfl, h1, h2, h3⟩
  · intro C hcat
    unfold Partition.propagate_property
    rw [hdata]
    simp only [ValueProperties.arrayResult]
    rw [hby]
    simp only [ValueProperties.arrayResult, hnc]
    rw [if_neg (by simp)]
    simp only [ArrayProperties.categoriesResult, hcat]
    unfold broadcast_partitions
    rw [if_neg (by simp)]
    simp only [List.headD_cons, Except.map]
    rcases collect_rekey_properties IndexKey.str
        (fun a b h => by injection h) C
        (partitionChildProperties dp node_id) with ⟨L, hL, h1, h2, h3⟩
    exact ⟨L, by rw [← hL]; rfl, h1, h2, h3⟩
  · intro C hcat
    unfold Partition.propagate_property
    rw [hdata]
    simp only [ValueProperties.arrayResult]
    rw [hby]
    simp only [ValueProperties.arrayResult, hnc]
    rw [if_neg (by simp)]
    simp only [ArrayProperties.categoriesResult, hcat]
    unfold broadcast_partitions
    rw [if_neg (by simp)]
    simp only [List.headD_cons, Except.map]
    rcases collect_rekey_properties IndexKey.i64
        (fun a b h => by injection h) C
        (partitionChildProperties dp node_id) with ⟨L, hL, h1, h2, h3⟩
    exact ⟨L, by rw [← hL]; rfl, h1, h2, h3⟩

/-- Witness for C7: the spec's §8 scenario — a one-column Bool `by`
argument over the 100-record 3-column parent at node 4. -/
theorem partition_propagate_property_by_categories_witness :
    (mapGet partitionByScenarioProperties "data" =
        some (.array partitionParentProperties) ∧
     mapGet partitionByScenarioProperties "by" =
        some (.array partitionByProperties) ∧
     partitionByProperties.num_columns = some 1) ∧
    ((∀ C : List Bool, partitionByProperties.categories = some (.bool [C]) →
      ∃ L, Partition.propagate_property ⟨⟩ none [] partitionByScenarioProperties 4 =
          .ok ⟨.indexmap none true L (some ((4 : Nat) : Int)) .partition, []⟩ ∧
        (∀ c, mapGet L (IndexKey.bool c) =
          if c ∈ C then
            some (partitionChildProperties partitionParentProperties 4) else none) ∧
        (∀ kv ∈ L, kv.2 = partitionChildProperties partitionParentProperties 4 ∧
          ∃ c ∈ C, kv.1 = IndexKey.bool c) ∧
        (C.Nodup → L = C.map (fun c =>
          (IndexKey.bool c, partitionChildProperties partitionParentProperties 4)))) ∧
    (∀ C : List String, partitionByProperties.categories = some (.str [C]) →
      ∃ L, Partition.propagate_property ⟨⟩ none [] partitionByScenarioProperties 4 =
          .ok ⟨.indexmap none true L (some ((4 : Nat) : Int)) .partition, []⟩ ∧
        (∀ c, mapGet L (IndexKey.str c) =
          if c ∈ C then
            some (partitionChildProperties partitionParentProperties 4) else none) ∧
        (∀ kv ∈ L, kv.2 = partitionChildProperties partitionParentProperties 4 ∧
          ∃ c ∈ C, kv.1 = IndexKey.str c) ∧
        (C.Nodup → L = C.map (fun c =>
          (IndexKey.str c, partitionChildProperties partitionParentProperties 4)))) ∧
    (∀ C : List Int, partitionByProperties.categories = some (.i64 [C]) →
      ∃ L, Partition.propagate_property ⟨⟩ none [] partitionByScenarioProperties 4 =
          .ok ⟨.indexmap none true L (some ((4 : Nat) : Int)) .partition, []⟩ ∧
        (∀ c, mapGet L (IndexKey.i64 c) =
          if c ∈ C then
            some (partitionChildProperties partitionParentProperties 4) else none) ∧
        (∀ kv ∈ L, kv.2 = partitionChildProperties partitionParentProperties 4 ∧
          ∃ c ∈ C, kv.1 = IndexKey.i64 c) ∧
        (C.Nodup → L = C.map (fun c =>
          (IndexKey.i64 c, partitionChildProperties partitionParentProperties 4))))) :=
  ⟨⟨rfl, rfl, rfl⟩,
    partition_propagate_property_by_categories partitionParentProperties
      partitionByProperties none [] partitionByScenarioProperties 4 rfl rfl rfl⟩

/-- `broadcast_partitions` either fails with its single-column arity
error or succeeds. -/
theorem broadcast_partitions_cases {T : Type} [DecidableEq T]
    (cats : List (List T)) (p : ArrayProperties) (nid : Nat) :
    broadcast_partitions cats p nid =
      .error "categories: must be defined for one column" ∨
    ∃ ps, broadcast_partitions cats p nid = .ok ps := by
  unfold broadcast_partitions
  by_cases h : cats.length ≠ 1
  · left; rw [if_pos h]
  · right; rw [if_neg h]; exact ⟨_, rfl⟩

/-- C8: Partition's `propagate_property` with a `by` argument errs with
its single-column error whenever the `by` array's `num_columns` differs
from 1, errs with its float error whenever the `by` categories are
floating-point, and when `num_columns = 1` and the categories are not
floating-point neither of those two error branches is taken. -/
theorem partition_propagate_property_by_error_conditions
    (dp bp : ArrayProperties)
    (pd : Option PrivacyDefinition) (pub : List (String × Value))
    (props : List (String × ValueProperties)) (node_id : Nat)
    (hdata : mapGet props "data" = some (.array dp))
    (hby : mapGet props "by" = some (.array bp)) :
    (∀ mcols : Int, bp.num_columns = some mcols → mcols ≠ 1 →
      Partition.propagate_property ⟨⟩ pd pub props node_id =
        .error "Partition's by argument must contain a single column") ∧
    (∀ cats, bp.num_columns = some 1 → bp.categories = some (.f64 cats) →
      Partition.propagate_property ⟨⟩ pd pub props node_id =
        .error "partitioning based on floats is not supported") ∧
    (bp.num_columns = some 1 →
      (∀ cats, bp.categories ≠ some (.f64 cats)) →
      Partition.propagate_property ⟨⟩ pd pub props node_id ≠
        .error "Partition's by argument must contain a single column" ∧
      Partition.propagate_property ⟨⟩ pd pub props node_id ≠
        .error "partitioning based on floats is not supported") := by
  refine ⟨?_, ?_, ?_⟩
  · intro mcols hm hne
    unfold Partition.propagate_property
    rw [hdata]
    simp only [ValueProperties.arrayResult]
    rw [hby]
    simp only [ValueProperties.arrayResult, hm]
    rw [if_pos hne]
  · intro cats h1 hcats
    unfold Partition.propagate_property
    rw [hdata]
    simp only [ValueProperties.arrayResult]
    rw [hby]
    simp only [ValueProperties.arrayResult, h1]
    rw [if_neg (by simp)]
    simp only [ArrayProperties.categoriesResult, hcats]
  · intro h1 hnf
    unfold Partition.propagate_property
    rw [hdata]
    simp only [ValueProperties.arrayResult]
    rw [hby]
    simp only [ValueProperties.arrayResult, h1]
    rw [if_neg (by simp)]
    cases hcat : bp.categories with
    | none =>
      simp only [ArrayProperties.categoriesResult, hcat]
      exact ⟨by simp, by simp⟩
    | some j =>
      cases j with
      | f64 cats => exact absurd hcat (hnf cats)
      | bool cats =>
        simp only [ArrayProperties.categoriesResult, hcat]
        rcases broadcast_partitions_cases cats
            { dp with num_records := none } node_id with hb | ⟨ps, hb⟩ <;>
          rw [hb] <;> exact ⟨by simp [Except.map], by simp [Except.map]⟩
      | i64 cats =>
        simp only [ArrayProperties.categoriesResult, hcat]
        rcases broadcast_partitions_cases cats
            { dp with num_records := none } node_id with hb | ⟨ps, hb⟩ <;>
          rw [hb] <;> exact ⟨by simp [Except.map], by simp [Except.map]⟩
      | str cats =>
        simp only [ArrayProperties.categoriesResult, hcat]
        rcases broadcast_partitions_cases cats
            { dp with num_records := none } node_id with hb | ⟨ps, hb⟩ <;>
          rw [hb] <;> exact ⟨by simp [Except.map], by simp [Except.map]⟩

/-- Witness for C8 at the spec's §8 Partition scenario (one Bool category
column, so the non-error conjunct is exercised and the two error
conjuncts hold vacuously). -/
theorem partition_propagate_property_by_error_conditions_witness :
    (mapGet partitionByScenarioProperties "data" =
        some (.array partitionParentProperties) ∧
     mapGet partitionByScenarioProperties "by" =
        some (.array partitionByProperties)) ∧
    ((∀ mcols : Int, partitionByProperties.num_columns = some mcols →
        mcols ≠ 1 →
      Partition.propagate_property ⟨⟩ none [] partitionByScenarioProperties 4 =
        .error "Partition's by argument must contain a single column") ∧
    (∀ cats, partitionByProperties.num_columns = some 1 →
        partitionByProperties.categories = some (.f64 cats) →
      Partition.propagate_property ⟨⟩ none [] partitionByScenarioProperties 4 =
        .error "partitioning based on floats is not supported") ∧
    (partitionByProperties.num_columns = some 1 →
      (∀ cats, partitionByProperties.categories ≠ some (.f64 cats)) →
      Partition.propagate_property ⟨⟩ none [] partitionByScenarioProperties 4 ≠
        .error "Partition's by argument must contain a single column" ∧
      Partition.propagate_property ⟨⟩ none [] partitionByScenarioProperties 4 ≠
        .error "partitioning based on floats is not supported")) :=
  ⟨⟨rfl, rfl⟩,
    partition_propagate_property_by_error_conditions partitionParentProperties
      partitionByProperties none [] partitionByScenarioProperties 4 rfl rfl⟩

/-- C1: the public `expand_component` endpoint does read the values of
release nodes whose `public` flag is false — every argument's release
value is passed to `propagate_property` — and two requests differing only
in the value of a non-public argument's release node produce different
results: with a count-based Partition at node 4 whose non-public
`num_partitions` release carries `[2]` versus `[3]`, the endpoint records
2-child versus 3-child partition properties. -/
theorem expand_component_uses_nonpublic_argument_value :
    ((partitionRequest 2).arguments.map (fun kv => kv.2.public) = [false] ∧
     (partitionRequest 3).arguments.map (fun kv => kv.2.public) = [false] ∧
     partitionRequest 3 = { partitionRequest 2 with
       arguments := [("num_partitions",
         { value := .array (.i64 [3]), privacy_usages := none,
           public := false })] }) ∧
    partitionChildCount (expand_component (partitionRequest 2)) = some 2 ∧
    partitionChildCount (expand_component (partitionRequest 3)) = some 3 ∧
    expand_component (partitionRequest 2) ≠ expand_component (partitionRequest 3) := by
  have h2 : partitionChildCount (expand_component (partitionRequest 2)) = some 2 := rfl
  have h3 : partitionChildCount (expand_component (partitionRequest 3)) = some 3 := rfl
  refine ⟨⟨rfl, rfl, rfl⟩, h2, h3, fun h => ?_⟩
  rw [h] at h2
  rw [h2] at h3
  exact absurd h3 (by decide)
